import Mathlib

/-!
Verification of `pyrad/utils/visualization.py` (`apply_colormap`,
`apply_depth_colormap`).

Modelling choices (shallow embedding):
* A tensor of shape `[..., 1]` is modelled as a `List ℚ` of its pixel scalars
  (the trailing singleton dimension squeezed, leading dimensions flattened);
  exact rational arithmetic stands in for torch's float arithmetic.
* An RGB color (one row of the colormap table) is `ℚ × ℚ × ℚ`, so an output
  tensor of shape `[..., 3]` is a `List Color`.
* A failing call (a failed `assert`, or torch's `RuntimeError` when
  `torch.min` / `torch.max` is reduced over an empty tensor) is
  `Except.error` carrying the message; the Python f-string
  `f"the min value is {image_long_min}"` is modelled as the corresponding
  string append (the `tensor(...)` wrapper of a tensor's repr is elided).
* The colormap registry (`matplotlib.cm.get_cmap(name).colors`) is an
  external collaborator; the 256-row table it returns for the requested name
  is a parameter `cm : Fin 256 → Color` of the model.
* The accumulation blend broadcasts the mask's trailing singleton against the
  three color channels; masks are taken with the same leading shape as the
  image (the spec's data model), i.e. lists of equal length.
-/

namespace Visualization

/-- An RGB triple: one row of a colormap table. -/
abbrev Color : Type := ℚ × ℚ × ℚ

/-- Model of Python's `.long()` cast on a float value: truncation toward
zero. -/
def pyLong (q : ℚ) : ℤ := if q < 0 then ⌈q⌉ else ⌊q⌋

/-- Model of `torch.min` over an integer tensor; `none` models the
`RuntimeError` raised on an empty tensor. -/
def tmin : List ℤ → Option ℤ
  | [] => none
  | x :: xs => some (xs.foldl min x)

/-- Model of `torch.max` over an integer tensor; `none` models the
`RuntimeError` raised on an empty tensor. -/
def tmax : List ℤ → Option ℤ
  | [] => none
  | x :: xs => some (xs.foldl max x)

/-- Model of `torch.min` over a rational tensor (the near-plane fallback). -/
def tminQ : List ℚ → Option ℚ
  | [] => none
  | x :: xs => some (xs.foldl min x)

/-- Model of `torch.max` over a rational tensor (the far-plane fallback). -/
def tmaxQ : List ℚ → Option ℚ
  | [] => none
  | x :: xs => some (xs.foldl max x)

/-- Row selection `colormap[n]` for an integer index `n`.  Python/torch index
semantics wrap negative indices once around the table, hence the modulus;
under `apply_colormap`'s assertions the index is always in `[0, 255]`, where
this is plain row selection (`tableGet_eq`). -/
def tableGet (cm : Fin 256 → Color) (n : ℤ) : Color :=
  cm ⟨(n % 256).toNat, by omega⟩

/-- The integer index tensor `(image * 255).long()` of `apply_colormap`. -/
def image_long (image : List ℚ) : List ℤ :=
  image.map fun x => pyLong (x * 255)

/-- Model of `apply_colormap(image, cmap)` from
`pyrad/utils/visualization.py`: scale by 255, truncate to integer indices,
assert the index range `[0, 255]` (the min assertion first, then the max
assertion, each failure reporting the offending value), then gather rows of
the colormap table. -/
def apply_colormap (cm : Fin 256 → Color) (image : List ℚ) :
    Except String (List Color) :=
  match tmin (image_long image), tmax (image_long image) with
  | some image_long_min, some image_long_max =>
      if image_long_min < 0 then
        Except.error ("the min value is " ++ toString image_long_min)
      else if 255 < image_long_max then
        Except.error ("the max value is " ++ toString image_long_max)
      else
        Except.ok ((image_long image).map (tableGet cm))
  | _, _ => Except.error "min(): cannot reduce over an empty tensor"

/-- Model of Python's `p or fallback` for an optional float plane `p`: `None`
and `0` (falsy) both select the fallback; the fallback itself is `none` when
computing it would have raised (empty-tensor reduction). -/
def resolvePlane (p : Option ℚ) (fallback : Option ℚ) : Option ℚ :=
  match p with
  | some v => if v = 0 then fallback else some v
  | none => fallback

/-- The constant `1e-10` added to the normalization divisor. -/
def eps10 : ℚ := 1 / 10000000000

/-- Model of `torch.clip(x, 0, 1)` on one scalar. -/
def clip01 (x : ℚ) : ℚ := min (max x 0) 1

/-- The blend `colored_image * accumulation + (1 - accumulation)`: the mask's
trailing singleton dimension broadcasts against the three color channels. -/
def blendWhite (colored : List Color) (acc : List ℚ) : List Color :=
  List.zipWith
    (fun c w => (c.1 * w + (1 - w), c.2.1 * w + (1 - w), c.2.2 * w + (1 - w)))
    colored acc

/-- Model of `apply_depth_colormap(depth, accumulation, near_plane,
far_plane, cmap)` from `pyrad/utils/visualization.py`: resolve the planes
with Python `or` (falling back to the depth min/max), normalize by
`(depth - near_plane) / (far_plane - near_plane + 1e-10)`, clip to `[0, 1]`,
colorize with `apply_colormap`, and, when an accumulation mask is supplied,
blend the colored image over a white background. -/
def apply_depth_colormap (cm : Fin 256 → Color) (depth : List ℚ)
    (accumulation : Option (List ℚ)) (near_plane far_plane : Option ℚ) :
    Except String (List Color) :=
  match resolvePlane near_plane (tminQ depth),
      resolvePlane far_plane (tmaxQ depth) with
  | some near, some far =>
      let d1 := depth.map fun x => (x - near) / (far - near + eps10)
      let d2 := d1.map clip01
      match apply_colormap cm d2 with
      | Except.ok colored =>
          match accumulation with
          | none => Except.ok colored
          | some a => Except.ok (blendWhite colored a)
      | Except.error e => Except.error e
  | _, _ => Except.error "min(): cannot reduce over an empty tensor"

/-- Written from the spec's testable property for the refinement claim:
colorize the element-wise clip to `[0, 1]` of the depth normalized with the
given near/far planes. -/
def depthColormapSpec (cm : Fin 256 → Color) (depth : List ℚ)
    (near far : ℚ) : Except String (List Color) :=
  apply_colormap cm (depth.map fun d => clip01 ((d - near) / (far - near + eps10)))

/-- A concrete colormap table used in counterexamples and witnesses: row `i`
is `(i, 0, 0)`, so distinct rows are distinct colors. -/
def cmW : Fin 256 → Color := fun i => ((i : ℚ), 0, 0)

/-- A second concrete colormap table, row `i` being `(0, i, 0)`. -/
def cmT : Fin 256 → Color := fun i => (0, (i : ℚ), 0)

/-- A concrete colormap table whose entries all lie in `[0, 1]`. -/
def cmHalf : Fin 256 → Color := fun _ => (1 / 2, 1 / 2, 1 / 2)

section FoldBounds

variable {α : Type} [LinearOrder α]

lemma foldl_min_le_init (a : α) (l : List α) : l.foldl min a ≤ a := by
  induction l generalizing a with
  | nil => exact le_refl a
  | cons x xs ih => exact (ih (min a x)).trans (min_le_left a x)

lemma foldl_min_le_mem {y : α} {l : List α} (a : α) (hy : y ∈ l) :
    l.foldl min a ≤ y := by
  induction l generalizing a with
  | nil => cases hy
  | cons x xs ih =>
      rcases List.mem_cons.mp hy with h | h
      · subst h
        exact (foldl_min_le_init (min a y) xs).trans (min_le_right a y)
      · exact ih (min a x) h

lemma le_foldl_min {c a : α} {l : List α} (ha : c ≤ a)
    (hl : ∀ y ∈ l, c ≤ y) : c ≤ l.foldl min a := by
  induction l generalizing a with
  | nil => exact ha
  | cons x xs ih =>
      exact ih (le_min ha (hl x (List.mem_cons_self x xs)))
        fun y hy => hl y (List.mem_cons_of_mem x hy)

lemma init_le_foldl_max (a : α) (l : List α) : a ≤ l.foldl max a := by
  induction l generalizing a with
  | nil => exact le_refl a
  | cons x xs ih => exact (le_max_left a x).trans (ih (max a x))

lemma mem_le_foldl_max {y : α} {l : List α} (a : α) (hy : y ∈ l) :
    y ≤ l.foldl max a := by
  induction l generalizing a with
  | nil => cases hy
  | cons x xs ih =>
      rcases List.mem_cons.mp hy with h | h
      · subst h
        exact (le_max_right a y).trans (init_le_foldl_max (max a y) xs)
      · exact ih (max a x) h

lemma foldl_max_le {c a : α} {l : List α} (ha : a ≤ c)
    (hl : ∀ y ∈ l, y ≤ c) : l.foldl max a ≤ c := by
  induction l generalizing a with
  | nil => exact ha
  | cons x xs ih =>
      exact ih (max_le ha (hl x (List.mem_cons_self x xs)))
        fun y hy => hl y (List.mem_cons_of_mem x hy)

end FoldBounds

lemma pyLong_of_nonneg {q : ℚ} (h : 0 ≤ q) : pyLong q = ⌊q⌋ := by
  rw [pyLong, if_neg (not_lt.mpr h)]

lemma pyLong_intCast (n : ℤ) : pyLong (n : ℚ) = n := by
  rw [pyLong]
  split <;> simp

lemma pyLong_bounds {x : ℚ} (h0 : 0 ≤ x) (h1 : x ≤ 1) :
    0 ≤ pyLong (x * 255) ∧ pyLong (x * 255) ≤ 255 := by
  have hq0 : (0 : ℚ) ≤ x * 255 := by positivity
  rw [pyLong_of_nonneg hq0]
  constructor
  · exact Int.le_floor.mpr (by exact_mod_cast hq0)
  · have hq1 : x * 255 ≤ (255 : ℚ) := by nlinarith
    calc ⌊x * 255⌋ ≤ ⌊(255 : ℚ)⌋ := Int.floor_le_floor hq1
    _ = 255 := by norm_num

lemma pyLong_neg_small {q : ℚ} (h0 : -1 < q) (h1 : q < 0) : pyLong q = 0 := by
  rw [pyLong, if_pos h1]
  have hle : ⌈q⌉ ≤ 0 := Int.ceil_le.mpr (by exact_mod_cast h1.le)
  have hgt : (-1 : ℤ) < ⌈q⌉ := Int.lt_ceil.mpr (by exact_mod_cast h0)
  omega

lemma clip01_nonneg (x : ℚ) : 0 ≤ clip01 x :=
  le_min (le_max_right x 0) (by norm_num)

lemma clip01_le_one (x : ℚ) : clip01 x ≤ 1 := min_le_right _ _

lemma tableGet_eq (cm : Fin 256 → Color) (n : ℤ) (h0 : 0 ≤ n)
    (h1 : n < 256) : tableGet cm n = cm ⟨n.toNat, by omega⟩ := by
  rw [tableGet]
  congr 1
  ext
  simp only
  omega

lemma image_long_cons (x : ℚ) (xs : List ℚ) :
    image_long (x :: xs) = pyLong (x * 255) :: image_long xs := rfl

lemma image_long_length (l : List ℚ) : (image_long l).length = l.length := by
  simp [image_long]

lemma apply_colormap_ok_of_bounds (cm : Fin 256 → Color) (x : ℚ)
    (xs : List ℚ)
    (h : ∀ y ∈ x :: xs, 0 ≤ pyLong (y * 255) ∧ pyLong (y * 255) ≤ 255) :
    apply_colormap cm (x :: xs) =
      Except.ok ((image_long (x :: xs)).map (tableGet cm)) := by
  have hmn : 0 ≤ (image_long xs).foldl min (pyLong (x * 255)) := by
    refine le_foldl_min (h x (List.mem_cons_self x xs)).1 ?_
    intro y hy
    rcases List.mem_map.mp hy with ⟨z, hz, rfl⟩
    exact (h z (List.mem_cons_of_mem x hz)).1
  have hmx : (image_long xs).foldl max (pyLong (x * 255)) ≤ 255 := by
    refine foldl_max_le (h x (List.mem_cons_self x xs)).2 ?_
    intro y hy
    rcases List.mem_map.mp hy with ⟨z, hz, rfl⟩
    exact (h z (List.mem_cons_of_mem x hz)).2
  rw [apply_colormap, image_long_cons, tmin, tmax]
  dsimp only
  rw [if_neg (by omega), if_neg (by omega)]

lemma apply_colormap_ok_elim {cm : Fin 256 → Color} {image : List ℚ}
    {out : List Color} (h : apply_colormap cm image = Except.ok out) :
    out = (image_long image).map (tableGet cm) := by
  rw [apply_colormap] at h
  cases htmin : tmin (image_long image) with
  | none =>
      rw [htmin] at h
      cases htmax : tmax (image_long image) <;> rw [htmax] at h <;>
        dsimp only at h <;> exact Except.noConfusion h
  | some mn =>
      rw [htmin] at h
      cases htmax : tmax (image_long image) with
      | none => rw [htmax] at h; dsimp only at h; exact Except.noConfusion h
      | some mx =>
          rw [htmax] at h
          dsimp only at h
          by_cases h1 : mn < 0
          · rw [if_pos h1] at h; exact Except.noConfusion h
          · rw [if_neg h1] at h
            by_cases h2 : 255 < mx
            · rw [if_pos h2] at h; exact Except.noConfusion h
            · rw [if_neg h2] at h
              injection h with h3
              exact h3.symm

lemma exists_of_mem_zipWith {α β γ : Type} {f : α → β → γ} {l1 : List α}
    {l2 : List β} {z : γ} (hz : z ∈ List.zipWith f l1 l2) :
    ∃ x ∈ l1, ∃ y ∈ l2, z = f x y := by
  induction l1 generalizing l2 with
  | nil => cases hz
  | cons x xs ih =>
      cases l2 with
      | nil => cases hz
      | cons y ys =>
          rcases List.mem_cons.mp hz with h | h
          · exact ⟨x, List.mem_cons_self x xs, y, List.mem_cons_self y ys, h⟩
          · rcases ih h with ⟨a, ha, b, hb, rfl⟩
            exact ⟨a, List.mem_cons_of_mem x ha, b,
              List.mem_cons_of_mem y hb, rfl⟩

lemma blendWhite_ones (l : List Color) :
    blendWhite l (List.replicate l.length 1) = l := by
  induction l with
  | nil => rfl
  | cons c cs ih =>
      simp only [blendWhite, List.length_cons, List.replicate,
        List.zipWith_cons_cons] at ih ⊢
      rw [ih]
      simp

lemma blendWhite_zeros (l : List Color) :
    blendWhite l (List.replicate l.length 0) =
      List.replicate l.length ((1 : ℚ), 1, 1) := by
  induction l with
  | nil => rfl
  | cons c cs ih =>
      simp only [blendWhite, List.length_cons, List.replicate,
        List.zipWith_cons_cons] at ih ⊢
      rw [ih]
      simp

lemma apply_depth_colormap_unresolved {cm : Fin 256 → Color} {depth : List ℚ}
    {acc : Option (List ℚ)} {nearO farO : Option ℚ}
    (h : resolvePlane nearO (tminQ depth) = none ∨
      resolvePlane farO (tmaxQ depth) = none) :
    apply_depth_colormap cm depth acc nearO farO =
      Except.error "min(): cannot reduce over an empty tensor" := by
  rw [apply_depth_colormap]
  cases hn : resolvePlane nearO (tminQ depth) with
  | none =>
      cases hf : resolvePlane farO (tmaxQ depth) <;> rfl
  | some near =>
      cases hf : resolvePlane farO (tmaxQ depth) with
      | none => rfl
      | some far =>
          rcases h with h | h
          · rw [hn] at h; exact Option.noConfusion h
          · rw [hf] at h; exact Option.noConfusion h

lemma apply_depth_colormap_resolved_none {cm : Fin 256 → Color}
    {depth : List ℚ} {nearO farO : Option ℚ} (near far : ℚ)
    (hn : resolvePlane nearO (tminQ depth) = some near)
    (hf : resolvePlane farO (tmaxQ depth) = some far) :
    apply_depth_colormap cm depth none nearO farO =
      apply_colormap cm
        (depth.map fun d => clip01 ((d - near) / (far - near + eps10))) := by
  rw [apply_depth_colormap, hn, hf]
  dsimp only
  rw [List.map_map]
  have harg : (clip01 ∘ fun x => (x - near) / (far - near + eps10)) =
      fun d => clip01 ((d - near) / (far - near + eps10)) := rfl
  rw [harg]
  cases hr : apply_colormap cm
      (depth.map fun d => clip01 ((d - near) / (far - near + eps10))) <;>
    simp [hr]

lemma apply_depth_colormap_resolved_some {cm : Fin 256 → Color}
    {depth : List ℚ} {a : List ℚ} {nearO farO : Option ℚ} (near far : ℚ)
    (hn : resolvePlane nearO (tminQ depth) = some near)
    (hf : resolvePlane farO (tmaxQ depth) = some far) :
    apply_depth_colormap cm depth (some a) nearO farO =
      (apply_colormap cm
          (depth.map fun d => clip01 ((d - near) / (far - near + eps10)))).map
        fun colored => blendWhite colored a := by
  rw [apply_depth_colormap, hn, hf]
  dsimp only
  rw [List.map_map]
  have harg : (clip01 ∘ fun x => (x - near) / (far - near + eps10)) =
      fun d => clip01 ((d - near) / (far - near + eps10)) := rfl
  rw [harg]
  cases hr : apply_colormap cm
      (depth.map fun d => clip01 ((d - near) / (far - near + eps10))) <;>
    simp [hr, Except.map]

lemma apply_colormap_singleton (cm : Fin 256 → Color) (x : ℚ) (n : ℤ)
    (hpx : pyLong (x * 255) = n) (h0 : 0 ≤ n) (h255 : n ≤ 255) :
    apply_colormap cm [x] = Except.ok [tableGet cm n] := by
  rw [apply_colormap_ok_of_bounds cm x []
    (by intro y hy
        rcases List.mem_cons.mp hy with rfl | hy
        · rw [hpx]; exact ⟨h0, h255⟩
        · cases hy)]
  simp [image_long, hpx]

/-- Claim C3: the near plane used by `apply_depth_colormap` is the provided
`near_plane` when it is given and truthy (non-zero), otherwise the minimum of
the depth array; a provided `near_plane` of exactly `0` is replaced by the
data minimum, so the call behaves as if no near plane was supplied.  The far
plane is resolved the same way with the maximum. -/
theorem claim_C3_planes (cm : Fin 256 → Color) (depth : List ℚ)
    (acc : Option (List ℚ)) (q : Option ℚ) (v : ℚ) (hv : v ≠ 0) :
    resolvePlane (some v) (tminQ depth) = some v ∧
    resolvePlane none (tminQ depth) = tminQ depth ∧
    resolvePlane (some 0) (tminQ depth) = tminQ depth ∧
    resolvePlane (some v) (tmaxQ depth) = some v ∧
    resolvePlane none (tmaxQ depth) = tmaxQ depth ∧
    resolvePlane (some 0) (tmaxQ depth) = tmaxQ depth ∧
    apply_depth_colormap cm depth acc (some 0) q =
      apply_depth_colormap cm depth acc none q ∧
    apply_depth_colormap cm depth acc q (some 0) =
      apply_depth_colormap cm depth acc q none := by
  have h0 : ∀ fb : Option ℚ, resolvePlane (some 0) fb = fb := by
    intro fb; simp [resolvePlane]
  have hsome : ∀ fb : Option ℚ, resolvePlane (some v) fb = some v := by
    intro fb; simp [resolvePlane, hv]
  refine ⟨hsome _, rfl, h0 _, hsome _, rfl, h0 _, ?_, ?_⟩
  · rw [apply_depth_colormap, apply_depth_colormap, h0]
    rfl
  · rw [apply_depth_colormap, apply_depth_colormap, h0]
    rfl

/-- Witness for C3 at concrete inputs. -/
theorem claim_C3_planes_witness :
    resolvePlane (some 3) (tminQ [(5 : ℚ)]) = some 3 ∧
    resolvePlane none (tminQ [(5 : ℚ)]) = tminQ [(5 : ℚ)] ∧
    resolvePlane (some 0) (tminQ [(5 : ℚ)]) = tminQ [(5 : ℚ)] ∧
    resolvePlane (some 3) (tmaxQ [(5 : ℚ)]) = some 3 ∧
    resolvePlane none (tmaxQ [(5 : ℚ)]) = tmaxQ [(5 : ℚ)] ∧
    resolvePlane (some 0) (tmaxQ [(5 : ℚ)]) = tmaxQ [(5 : ℚ)] ∧
    apply_depth_colormap cmW [(5 : ℚ)] none (some 0) (some 1) =
      apply_depth_colormap cmW [(5 : ℚ)] none none (some 1) ∧
    apply_depth_colormap cmW [(5 : ℚ)] none (some 1) (some 0) =
      apply_depth_colormap cmW [(5 : ℚ)] none (some 1) none :=
  claim_C3_planes cmW [(5 : ℚ)] none (some 1) 3 (by norm_num)

/-- Counterexample to claim C1 as stated: with `depth = [2]`,
`near_plane = 0`, `far_plane = 1` and no accumulation mask, the call does not
reproduce `apply_colormap` of the clipped depth, because the supplied `0` is
falsy and is replaced by the depth minimum (here `2`). -/
theorem claim_C1_counterexample :
    apply_depth_colormap cmW [(2 : ℚ)] none (some 0) (some 1) ≠
      apply_colormap cmW (List.map clip01 [(2 : ℚ)]) := by
  have hn : resolvePlane (some 0) (tminQ [(2 : ℚ)]) = some 2 := by
    simp [resolvePlane, tminQ]
  have hf : resolvePlane (some 1) (tmaxQ [(2 : ℚ)]) = some 1 := by
    simp [resolvePlane]
  have hL : apply_depth_colormap cmW [(2 : ℚ)] none (some 0) (some 1) =
      Except.ok [tableGet cmW 0] := by
    rw [apply_depth_colormap_resolved_none 2 1 hn hf]
    have harg : List.map (fun d => clip01 ((d - 2) / (1 - 2 + eps10))) [(2 : ℚ)] =
        [(0 : ℚ)] := by
      simp [clip01, eps10]
    rw [harg]
    exact apply_colormap_singleton cmW 0 0 (by rw [pyLong]; norm_num)
      (by norm_num) (by norm_num)
  have hclip : List.map clip01 [(2 : ℚ)] = [(1 : ℚ)] := by
    simp [clip01]
  have hR : apply_colormap cmW (List.map clip01 [(2 : ℚ)]) =
      Except.ok [tableGet cmW 255] := by
    rw [hclip]
    exact apply_colormap_singleton cmW 1 255 (by rw [pyLong]; norm_num)
      (by norm_num) (by norm_num)
  rw [hL, hR]
  have h0 : tableGet cmW 0 = ((0 : ℚ), 0, 0) := by
    rw [tableGet_eq cmW 0 (by norm_num) (by norm_num)]
    simp [cmW]
  have h255 : tableGet cmW 255 = ((255 : ℚ), 0, 0) := by
    rw [tableGet_eq cmW 255 (by norm_num) (by norm_num)]
    simp [cmW]
  rw [h0, h255]
  intro hcontra
  injection hcontra with h1
  simp only [List.cons.injEq, Prod.mk.injEq] at h1
  exact absurd h1.1.1 (by norm_num)

/-- Claim C1 amended: with explicitly supplied `near_plane = 0` and
`far_plane = 1` and no accumulation mask, `apply_depth_colormap` of a
nonempty depth array equals `apply_colormap` of the clip to `[0, 1]` of
`(depth - m) / (1 - m + 1e-10)` where `m` is the depth minimum: the falsy
check replaces the supplied `0` by the data minimum, and the `1e-10` epsilon
skews the divisor, so the clipped depth itself is not reproduced. -/
theorem claim_C1_amended (cm : Fin 256 → Color) (x : ℚ) (xs : List ℚ) :
    apply_depth_colormap cm (x :: xs) none (some 0) (some 1) =
      depthColormapSpec cm (x :: xs) (xs.foldl min x) 1 := by
  have hn : resolvePlane (some 0) (tminQ (x :: xs)) =
      some (xs.foldl min x) := by
    simp [resolvePlane, tminQ]
  have hf : resolvePlane (some 1) (tmaxQ (x :: xs)) = some 1 := by
    simp [resolvePlane]
  rw [apply_depth_colormap_resolved_none (xs.foldl min x) 1 hn hf,
    depthColormapSpec]

/-- Witness for the amended C1 at a concrete input. -/
theorem claim_C1_amended_witness :
    apply_depth_colormap cmW [(2 : ℚ)] none (some 0) (some 1) =
      depthColormapSpec cmW [(2 : ℚ)] (List.foldl min 2 []) 1 :=
  claim_C1_amended cmW 2 []

lemma apply_colormap_cons (cm : Fin 256 → Color) (x : ℚ) (xs : List ℚ) :
    apply_colormap cm (x :: xs) =
      if (image_long xs).foldl min (pyLong (x * 255)) < 0 then
        Except.error ("the min value is " ++
          toString ((image_long xs).foldl min (pyLong (x * 255))))
      else if 255 < (image_long xs).foldl max (pyLong (x * 255)) then
        Except.error ("the max value is " ++
          toString ((image_long xs).foldl max (pyLong (x * 255))))
      else Except.ok ((image_long (x :: xs)).map (tableGet cm)) := by
  rw [apply_colormap, image_long_cons, tmin, tmax]

/-- Counterexample to claim C2 as stated: the input `[-1/300]` has a value
whose scaling by 255 is negative (`-17/20`), yet `apply_colormap` does not
fail: truncation toward zero sends it to index `0` and a result is
returned. -/
theorem claim_C2_counterexample :
    ((-1 : ℚ) / 300 * 255 < 0) ∧
      apply_colormap cmW [(-1 : ℚ) / 300] = Except.ok [((0 : ℚ), 0, 0)] := by
  constructor
  · norm_num
  · have h := apply_colormap_singleton cmW ((-1 : ℚ) / 300) 0
      (by rw [pyLong]; norm_num) (by norm_num) (by norm_num)
    rw [h, tableGet_eq cmW 0 (by norm_num) (by norm_num)]
    simp [cmW]

/-- Claim C2 amended: `apply_colormap` fails, returning no result, whenever
some input value scaled by 255 and truncated toward zero (the computed
index) is negative or exceeds 255 — equivalently the scaled value is ≤ -1 or
≥ 256, not merely negative or above 255 — and the failure message reports
the offending minimum or maximum index. -/
theorem claim_C2_amended (cm : Fin 256 → Color) (x : ℚ) (xs : List ℚ)
    (h : ∃ y ∈ x :: xs, pyLong (y * 255) < 0 ∨ 255 < pyLong (y * 255)) :
    ((image_long xs).foldl min (pyLong (x * 255)) < 0 ∧
      apply_colormap cm (x :: xs) =
        Except.error ("the min value is " ++
          toString ((image_long xs).foldl min (pyLong (x * 255))))) ∨
    (0 ≤ (image_long xs).foldl min (pyLong (x * 255)) ∧
      255 < (image_long xs).foldl max (pyLong (x * 255)) ∧
      apply_colormap cm (x :: xs) =
        Except.error ("the max value is " ++
          toString ((image_long xs).foldl max (pyLong (x * 255))))) := by
  by_cases hmn : (image_long xs).foldl min (pyLong (x * 255)) < 0
  · left
    exact ⟨hmn, by rw [apply_colormap_cons, if_pos hmn]⟩
  · right
    obtain ⟨y, hy, hcase⟩ := h
    have hbound : (image_long xs).foldl min (pyLong (x * 255)) ≤
        pyLong (y * 255) ∧
        pyLong (y * 255) ≤ (image_long xs).foldl max (pyLong (x * 255)) := by
      rcases List.mem_cons.mp hy with rfl | hy2
      · exact ⟨foldl_min_le_init _ _, init_le_foldl_max _ _⟩
      · have hmem : pyLong (y * 255) ∈ image_long xs := by
          exact List.mem_map_of_mem _ hy2
        exact ⟨foldl_min_le_mem _ hmem, mem_le_foldl_max _ hmem⟩
    have hmx : 255 < (image_long xs).foldl max (pyLong (x * 255)) := by
      rcases hcase with hneg | hpos
      · omega
      · omega
    exact ⟨by omega, hmx,
      by rw [apply_colormap_cons, if_neg hmn, if_pos hmx]⟩

/-- Witness for the amended C2 at the concrete input `[2]`. -/
theorem claim_C2_amended_witness :
    ((image_long ([] : List ℚ)).foldl min (pyLong ((2 : ℚ) * 255)) < 0 ∧
      apply_colormap cmW [(2 : ℚ)] =
        Except.error ("the min value is " ++
          toString ((image_long ([] : List ℚ)).foldl min
            (pyLong ((2 : ℚ) * 255))))) ∨
    (0 ≤ (image_long ([] : List ℚ)).foldl min (pyLong ((2 : ℚ) * 255)) ∧
      255 < (image_long ([] : List ℚ)).foldl max (pyLong ((2 : ℚ) * 255)) ∧
      apply_colormap cmW [(2 : ℚ)] =
        Except.error ("the max value is " ++
          toString ((image_long ([] : List ℚ)).foldl max
            (pyLong ((2 : ℚ) * 255))))) :=
  claim_C2_amended cmW 2 []
    ⟨2, List.mem_cons_self 2 [], Or.inr (by rw [pyLong]; norm_num)⟩

/-- Claim C4: when an input entry of `apply_colormap` equals `i / 255` for an
index `i` in `[0, 255]`, the corresponding output color is the `i`-th row of
the colormap table. -/
theorem claim_C4_table_row (cm : Fin 256 → Color) (image : List ℚ)
    (out : List Color) (h : apply_colormap cm image = Except.ok out)
    (k : ℕ) (i : Fin 256) (hx : image[k]? = some (((i : ℕ) : ℚ) / 255)) :
    out[k]? = some (cm i) := by
  rw [apply_colormap_ok_elim h, image_long, List.map_map,
    List.getElem?_map, hx]
  have harg : ((i : ℕ) : ℚ) / 255 * 255 = ((i : ℕ) : ℚ) :=
    div_mul_cancel₀ _ (by norm_num)
  have hpy : pyLong (((i : ℕ) : ℚ)) = ((i : ℕ) : ℤ) := by
    have h2 := pyLong_intCast ((i : ℕ) : ℤ)
    push_cast at h2
    exact_mod_cast h2
  simp only [Option.map_some', Function.comp_apply, harg, hpy]
  rw [tableGet_eq cm ((i : ℕ) : ℤ) (by positivity)
    (by exact_mod_cast i.isLt)]
  simp only [Int.toNat_natCast, Fin.eta]

/-- Witness for C4 at the concrete input `[1/255]` and row `1`. -/
theorem claim_C4_table_row_witness :
    (List.map (tableGet cmW) (image_long [(1 : ℚ) / 255]))[0]? =
      some (cmW ⟨1, by omega⟩) :=
  claim_C4_table_row cmW [(1 : ℚ) / 255]
    (List.map (tableGet cmW) (image_long [(1 : ℚ) / 255]))
    (apply_colormap_ok_of_bounds cmW ((1 : ℚ) / 255) []
      (by intro y hy
          rcases List.mem_cons.mp hy with rfl | hy2
          · exact pyLong_bounds (by norm_num) (by norm_num)
          · cases hy2))
    0 ⟨1, by omega⟩ (by norm_num)

/-- Counterexample to claim C5 as stated: the empty input (a tensor of shape
`(0, 1)`, all of whose values vacuously lie in `[0, 1]`) makes
`apply_colormap` raise on the empty-tensor min reduction instead of
returning an array. -/
theorem claim_C5_counterexample :
    apply_colormap cmW [] =
      Except.error "min(): cannot reduce over an empty tensor" := rfl

/-- Claim C5 amended: for every NONEMPTY input array with trailing dimension
one and all values in `[0, 1]`, `apply_colormap` succeeds and returns an
array of colors (trailing dimension three) with exactly as many pixels as
the input. -/
theorem claim_C5_amended (cm : Fin 256 → Color) (x : ℚ) (xs : List ℚ)
    (hvals : ∀ y ∈ x :: xs, 0 ≤ y ∧ y ≤ 1) :
    (apply_colormap cm (x :: xs)).map List.length =
      Except.ok (x :: xs).length := by
  rw [apply_colormap_ok_of_bounds cm x xs
    (fun y hy => pyLong_bounds (hvals y hy).1 (hvals y hy).2)]
  simp [Except.map, image_long]

/-- Witness for the amended C5 at the concrete input `[1/2]`. -/
theorem claim_C5_amended_witness :
    (apply_colormap cmW [(1 : ℚ) / 2]).map List.length = Except.ok 1 :=
  claim_C5_amended cmW ((1 : ℚ) / 2) []
    (by intro y hy
        rcases List.mem_cons.mp hy with rfl | hy2
        · norm_num
        · cases hy2)

/-- Counterexample to claim C6 as stated: with the empty depth array and
explicitly chosen equal planes `near = far = 1`, `apply_depth_colormap` does
not return a color array at all — the colorization step raises on the
empty-tensor min reduction. -/
theorem claim_C6_counterexample :
    resolvePlane (some 1) (tminQ ([] : List ℚ)) = some 1 ∧
    resolvePlane (some 1) (tmaxQ ([] : List ℚ)) = some 1 ∧
    apply_depth_colormap cmW [] none (some 1) (some 1) =
      Except.error "min(): cannot reduce over an empty tensor" := by
  refine ⟨by simp [resolvePlane], by simp [resolvePlane], ?_⟩
  rw [apply_depth_colormap_resolved_none 1 1 (by simp [resolvePlane])
    (by simp [resolvePlane])]
  rfl

/-- Claim C6 amended: for every NONEMPTY depth array, when the chosen near
plane equals the chosen far plane the divisor `far - near + 1e-10` is the
nonzero epsilon, no division error occurs, and the call succeeds with a
color array (whose rational entries are by construction finite: no NaN/Inf
exists in the exact model).  A supplied mask is taken with the shape the
data model prescribes (same length as the depth). -/
theorem claim_C6_amended (cm : Fin 256 → Color) (x : ℚ) (xs : List ℚ)
    (acc : Option (List ℚ)) (nearO farO : Option ℚ) (v : ℚ)
    (hn : resolvePlane nearO (tminQ (x :: xs)) = some v)
    (hf : resolvePlane farO (tmaxQ (x :: xs)) = some v)
    (hacc : ∀ a, acc = some a → a.length = (x :: xs).length) :
    v - v + eps10 ≠ 0 ∧
      (apply_depth_colormap cm (x :: xs) acc nearO farO).isOk = true := by
  have hb : ∀ y ∈ clip01 ((x - v) / (v - v + eps10)) ::
      List.map (fun d => clip01 ((d - v) / (v - v + eps10))) xs,
      0 ≤ pyLong (y * 255) ∧ pyLong (y * 255) ≤ 255 := by
    intro y hy
    rcases List.mem_cons.mp hy with rfl | hy2
    · exact pyLong_bounds (clip01_nonneg _) (clip01_le_one _)
    · rcases List.mem_map.mp hy2 with ⟨d, hd, rfl⟩
      exact pyLong_bounds (clip01_nonneg _) (clip01_le_one _)
  constructor
  · have hv : v - v + eps10 = eps10 := by ring
    rw [hv, eps10]
    norm_num
  · cases acc with
    | none =>
        rw [apply_depth_colormap_resolved_none v v hn hf, List.map_cons,
          apply_colormap_ok_of_bounds cm _ _ hb]
        rfl
    | some a =>
        rw [apply_depth_colormap_resolved_some v v hn hf, List.map_cons,
          apply_colormap_ok_of_bounds cm _ _ hb]
        rfl

/-- Witness for the amended C6 at the concrete input `[0]` with
`near = far = 1`. -/
theorem claim_C6_amended_witness :
    (1 : ℚ) - 1 + eps10 ≠ 0 ∧
      (apply_depth_colormap cmW [(0 : ℚ)] none (some 1) (some 1)).isOk =
        true :=
  claim_C6_amended cmW 0 [] none (some 1) (some 1) 1
    (by simp [resolvePlane]) (by simp [resolvePlane])
    (fun a ha => Option.noConfusion ha)

lemma mask_ones_eq_no_mask (cm : Fin 256 → Color) (depth : List ℚ)
    (nearO farO : Option ℚ) :
    apply_depth_colormap cm depth (some (List.replicate depth.length 1))
        nearO farO =
      apply_depth_colormap cm depth none nearO farO := by
  cases hn : resolvePlane nearO (tminQ depth) with
  | none =>
      rw [apply_depth_colormap_unresolved (Or.inl hn),
        apply_depth_colormap_unresolved (Or.inl hn)]
  | some near =>
      cases hf : resolvePlane farO (tmaxQ depth) with
      | none =>
          rw [apply_depth_colormap_unresolved (Or.inr hf),
            apply_depth_colormap_unresolved (Or.inr hf)]
      | some far =>
          cases hc : apply_colormap cm
              (depth.map fun d =>
                clip01 ((d - near) / (far - near + eps10))) with
          | error e =>
              rw [apply_depth_colormap_resolved_some near far hn hf,
                apply_depth_colormap_resolved_none near far hn hf, hc]
              rfl
          | ok colored =>
              have hlen : colored.length = depth.length := by
                rw [apply_colormap_ok_elim hc]
                simp [image_long]
              rw [apply_depth_colormap_resolved_some near far hn hf,
                apply_depth_colormap_resolved_none near far hn hf, hc]
              simp only [Except.map]
              rw [← hlen, blendWhite_ones]

lemma resolvePlane_some_fallback (p : Option ℚ) (f : ℚ) :
    ∃ v, resolvePlane p (some f) = some v := by
  cases p with
  | none => exact ⟨f, rfl⟩
  | some v =>
      by_cases hv : v = 0
      · exact ⟨f, by simp [resolvePlane, hv]⟩
      · exact ⟨v, by simp [resolvePlane, hv]⟩

/-- Counterexample to claim C7 as stated: with the empty depth array,
explicit planes and the (empty) all-zeros accumulation mask,
`apply_depth_colormap` raises in the empty-tensor min reduction instead of
returning the pure-white array. -/
theorem claim_C7_counterexample :
    apply_depth_colormap cmW []
        (some (List.replicate ([] : List ℚ).length 0)) (some 1) (some 2) =
      Except.error "min(): cannot reduce over an empty tensor" ∧
    apply_depth_colormap cmW []
        (some (List.replicate ([] : List ℚ).length 0)) (some 1) (some 2) ≠
      Except.ok (List.replicate ([] : List ℚ).length ((1 : ℚ), 1, 1)) := by
  have h : apply_depth_colormap cmW []
      (some (List.replicate ([] : List ℚ).length 0)) (some 1) (some 2) =
      Except.error "min(): cannot reduce over an empty tensor" := by
    rw [apply_depth_colormap_resolved_some 1 2 (by simp [resolvePlane])
      (by simp [resolvePlane])]
    rfl
  refine ⟨h, ?_⟩
  rw [h]
  exact fun hcontra => Except.noConfusion hcontra

/-- Claim C7 amended: for every depth array and parameters, the call with an
all-ones accumulation mask returns exactly the same result as the call with
no mask (errors included); and for every NONEMPTY depth array the call with
an all-zeros mask returns the pure-white array (every pixel `(1, 1, 1)`).
On the empty depth array the code instead raises in the empty-tensor min
reduction and returns no array at all. -/
theorem claim_C7_amended (cm : Fin 256 → Color) (depth : List ℚ)
    (nearO farO : Option ℚ) (x : ℚ) (xs : List ℚ) :
    apply_depth_colormap cm depth (some (List.replicate depth.length 1))
        nearO farO =
      apply_depth_colormap cm depth none nearO farO ∧
    apply_depth_colormap cm (x :: xs)
        (some (List.replicate (x :: xs).length 0)) nearO farO =
      Except.ok (List.replicate (x :: xs).length ((1 : ℚ), 1, 1)) := by
  refine ⟨mask_ones_eq_no_mask cm depth nearO farO, ?_⟩
  obtain ⟨nv, hn⟩ := resolvePlane_some_fallback nearO (xs.foldl min x)
  obtain ⟨fv, hf⟩ := resolvePlane_some_fallback farO (xs.foldl max x)
  have hn2 : resolvePlane nearO (tminQ (x :: xs)) = some nv := hn
  have hf2 : resolvePlane farO (tmaxQ (x :: xs)) = some fv := hf
  have hb : ∀ y ∈ clip01 ((x - nv) / (fv - nv + eps10)) ::
      List.map (fun d => clip01 ((d - nv) / (fv - nv + eps10))) xs,
      0 ≤ pyLong (y * 255) ∧ pyLong (y * 255) ≤ 255 := by
    intro y hy
    rcases List.mem_cons.mp hy with rfl | hy2
    · exact pyLong_bounds (clip01_nonneg _) (clip01_le_one _)
    · rcases List.mem_map.mp hy2 with ⟨d, hd, rfl⟩
      exact pyLong_bounds (clip01_nonneg _) (clip01_le_one _)
  rw [apply_depth_colormap_resolved_some nv fv hn2 hf2, List.map_cons,
    apply_colormap_ok_of_bounds cm _ _ hb]
  simp only [Except.map]
  have hlen : ((image_long (clip01 ((x - nv) / (fv - nv + eps10)) ::
      List.map (fun d => clip01 ((d - nv) / (fv - nv + eps10))) xs)).map
        (tableGet cm)).length = (x :: xs).length := by
    simp [image_long]
  rw [← hlen, blendWhite_zeros, hlen]

/-- Witness for the amended C7 at the concrete input `[0]` with planes `1`
and `2`. -/
theorem claim_C7_amended_witness :
    (apply_depth_colormap cmW [(0 : ℚ)] (some (List.replicate 1 1))
        (some 1) (some 2) =
      apply_depth_colormap cmW [(0 : ℚ)] none (some 1) (some 2)) ∧
    apply_depth_colormap cmW [(0 : ℚ)] (some (List.replicate 1 0))
        (some 1) (some 2) =
      Except.ok (List.replicate 1 ((1 : ℚ), 1, 1)) :=
  claim_C7_amended cmW [(0 : ℚ)] (some 1) (some 2) 0 []

/-- Counterexample to claim C9 as stated: the empty input array (all of
whose values vacuously lie in `(-1/255, 0)`) makes `apply_colormap` raise on
the empty-tensor min reduction instead of succeeding. -/
theorem claim_C9_counterexample :
    apply_colormap cmT [] =
      Except.error "min(): cannot reduce over an empty tensor" := rfl

/-- Claim C9 amended: for every NONEMPTY input array all of whose values lie
in the open interval `(-1/255, 0)`, scaling by 255 and truncating toward
zero yields index 0 everywhere, both range assertions pass, and every output
pixel is row 0 of the colormap table. -/
theorem claim_C9_amended (cm : Fin 256 → Color) (x : ℚ) (xs : List ℚ)
    (hv : ∀ y ∈ x :: xs, -1 / 255 < y ∧ y < 0) :
    image_long (x :: xs) = List.replicate (x :: xs).length 0 ∧
      apply_colormap cm (x :: xs) =
        Except.ok (List.replicate (x :: xs).length (cm 0)) := by
  have hz : ∀ y ∈ x :: xs, pyLong (y * 255) = 0 := by
    intro y hy
    have h1 := (hv y hy).1
    have h2 := (hv y hy).2
    apply pyLong_neg_small
    · nlinarith
    · nlinarith
  have himg : image_long (x :: xs) = List.replicate (x :: xs).length 0 := by
    rw [image_long, List.eq_replicate_iff]
    constructor
    · simp
    · intro b hb
      rcases List.mem_map.mp hb with ⟨y, hy, rfl⟩
      exact hz y hy
  refine ⟨himg, ?_⟩
  rw [apply_colormap_ok_of_bounds cm x xs
    (fun y hy => by rw [hz y hy]; norm_num)]
  rw [himg, List.map_replicate]
  have htg : tableGet cm 0 = cm 0 := by
    rw [tableGet_eq cm 0 (by norm_num) (by norm_num)]
    rfl
  rw [htg]

/-- Witness for the amended C9 at the concrete input `[-1/510]`. -/
theorem claim_C9_amended_witness :
    image_long [(-1 : ℚ) / 510] = List.replicate 1 0 ∧
      apply_colormap cmW [(-1 : ℚ) / 510] =
        Except.ok (List.replicate 1 (cmW 0)) :=
  claim_C9_amended cmW ((-1 : ℚ) / 510) []
    (by intro y hy
        rcases List.mem_cons.mp hy with rfl | hy2
        · constructor <;> norm_num
        · cases hy2)

/-- Claim C10: when the colormap table's entries all lie in `[0, 1]` and the
accumulation mask's values lie in `[0, 1]`, every channel of every pixel of
a returned color image lies in `[0, 1]`: the blend is a convex combination
of a table color and white. -/
theorem claim_C10_range (cm : Fin 256 → Color) (depth : List ℚ)
    (acc : Option (List ℚ)) (nearO farO : Option ℚ) (out : List Color)
    (hcm : ∀ i : Fin 256, 0 ≤ (cm i).1 ∧ (cm i).1 ≤ 1 ∧ 0 ≤ (cm i).2.1 ∧
      (cm i).2.1 ≤ 1 ∧ 0 ≤ (cm i).2.2 ∧ (cm i).2.2 ≤ 1)
    (hacc : ∀ a, acc = some a → ∀ w ∈ a, 0 ≤ w ∧ w ≤ 1)
    (h : apply_depth_colormap cm depth acc nearO farO = Except.ok out) :
    ∀ c ∈ out, 0 ≤ c.1 ∧ c.1 ≤ 1 ∧ 0 ≤ c.2.1 ∧ c.2.1 ≤ 1 ∧ 0 ≤ c.2.2 ∧
      c.2.2 ≤ 1 := by
  have htg : ∀ n : ℤ, 0 ≤ (tableGet cm n).1 ∧ (tableGet cm n).1 ≤ 1 ∧
      0 ≤ (tableGet cm n).2.1 ∧ (tableGet cm n).2.1 ≤ 1 ∧
      0 ≤ (tableGet cm n).2.2 ∧ (tableGet cm n).2.2 ≤ 1 := by
    intro n
    exact hcm _
  cases hn : resolvePlane nearO (tminQ depth) with
  | none =>
      rw [apply_depth_colormap_unresolved (Or.inl hn)] at h
      exact Except.noConfusion h
  | some near =>
      cases hf : resolvePlane farO (tmaxQ depth) with
      | none =>
          rw [apply_depth_colormap_unresolved (Or.inr hf)] at h
          exact Except.noConfusion h
      | some far =>
          cases hc : apply_colormap cm
              (depth.map fun d =>
                clip01 ((d - near) / (far - near + eps10))) with
          | error e =>
              cases acc with
              | none =>
                  rw [apply_depth_colormap_resolved_none near far hn hf,
                    hc] at h
                  exact Except.noConfusion h
              | some a =>
                  rw [apply_depth_colormap_resolved_some near far hn hf,
                    hc] at h
                  exact Except.noConfusion h
          | ok colored =>
              have hcol : ∀ c ∈ colored, 0 ≤ c.1 ∧ c.1 ≤ 1 ∧ 0 ≤ c.2.1 ∧
                  c.2.1 ≤ 1 ∧ 0 ≤ c.2.2 ∧ c.2.2 ≤ 1 := by
                intro c hcmem
                rw [apply_colormap_ok_elim hc] at hcmem
                rcases List.mem_map.mp hcmem with ⟨n, hn2, rfl⟩
                exact htg n
              cases acc with
              | none =>
                  rw [apply_depth_colormap_resolved_none near far hn hf,
                    hc] at h
                  injection h with h2
                  rw [← h2]
                  exact hcol
              | some a =>
                  rw [apply_depth_colormap_resolved_some near far hn hf,
                    hc] at h
                  simp only [Except.map] at h
                  injection h with h2
                  rw [← h2]
                  intro c hcmem
                  rw [blendWhite] at hcmem
                  rcases exists_of_mem_zipWith hcmem with
                    ⟨c0, hc0, w, hw, rfl⟩
                  obtain ⟨p1, p2, p3, p4, p5, p6⟩ := hcol c0 hc0
                  obtain ⟨w0, w1⟩ := hacc a rfl w hw
                  dsimp only
                  refine ⟨?_, ?_, ?_, ?_, ?_, ?_⟩ <;> nlinarith

/-- Witness for C10: a fully instantiated run with the constant table
`(1/2, 1/2, 1/2)` and mask weight `1/2`, whose single output pixel is
`(3/4, 3/4, 3/4)`. -/
theorem claim_C10_range_witness :
    0 ≤ (3 : ℚ) / 4 ∧ (3 : ℚ) / 4 ≤ 1 ∧ 0 ≤ (3 : ℚ) / 4 ∧
      (3 : ℚ) / 4 ≤ 1 ∧ 0 ≤ (3 : ℚ) / 4 ∧ (3 : ℚ) / 4 ≤ 1 := by
  have hEval : apply_depth_colormap cmHalf [(0 : ℚ)] (some [(1 : ℚ) / 2])
      (some 1) (some 2) =
      Except.ok [((3 : ℚ) / 4, (3 : ℚ) / 4, (3 : ℚ) / 4)] := by
    rw [apply_depth_colormap_resolved_some 1 2 (by simp [resolvePlane])
      (by simp [resolvePlane])]
    have harg : List.map (fun d => clip01 ((d - 1) / (2 - 1 + eps10)))
        [(0 : ℚ)] = [(0 : ℚ)] := by
      simp [clip01, eps10]
      norm_num
    rw [harg, apply_colormap_singleton cmHalf 0 0
      (by rw [pyLong]; norm_num) (by norm_num) (by norm_num)]
    have htg : tableGet cmHalf 0 = ((1 : ℚ) / 2, (1 : ℚ) / 2, (1 : ℚ) / 2) := by
      rw [tableGet_eq cmHalf 0 (by norm_num) (by norm_num)]
      rfl
    simp only [Except.map, htg, blendWhite, List.zipWith_cons_cons,
      List.zipWith_nil_right]
    norm_num
  exact claim_C10_range cmHalf [(0 : ℚ)] (some [(1 : ℚ) / 2]) (some 1)
    (some 2) [((3 : ℚ) / 4, (3 : ℚ) / 4, (3 : ℚ) / 4)]
    (fun i => by norm_num [cmHalf])
    (by intro a ha w hw
        injection ha with ha2
        rw [← ha2] at hw
        rcases List.mem_cons.mp hw with rfl | hw2
        · norm_num
        · cases hw2)
    hEval
    ((3 : ℚ) / 4, (3 : ℚ) / 4, (3 : ℚ) / 4)
    (List.mem_cons_self _ _)

end Visualization
